import Mathlib

/-!
Verification development for the nh3 HTML-sanitization binding.

The binding layer (sanitizer construction, the Python attribute-filter
adapter, and the module-level clean function) is embedded from
`src/lib.rs`.  The sanitization engine itself (the tree walker of the
wrapped ammonia library) is not part of this repository's sources, so it
is modelled from the specification's description of the Policy data
model and the single-pass tree-walker algorithm.

Strings are represented by their character lists (`Str`), HTML node
trees by a first-child/next-sibling inductive (`Node`), and maps/sets
by association lists / lists, so that every definition is executable.
-/

namespace NH3

/-- Character-list representation of strings used throughout the model. -/
abbrev Str := List Char

/-- Conversion from a Lean string literal to the model representation. -/
def str (s : String) : Str := s.toList

/-- Boolean membership of a string in a list of strings. -/
def memS (a : Str) (l : List Str) : Bool := decide (a ∈ l)

/-- ASCII whitespace recognizer (space, tab, LF, FF, CR). -/
def isWsChar (c : Char) : Bool :=
  c = ' ' || c = Char.ofNat 9 || c = Char.ofNat 10 || c = Char.ofNat 12 || c = Char.ofNat 13

/-- Trim ASCII whitespace from both ends of a character list. -/
def trimStr (s : Str) : Str :=
  ((s.dropWhile isWsChar).reverse.dropWhile isWsChar).reverse

/-- Accumulating tokenizer: splits on ASCII whitespace, dropping empty tokens. -/
def tokensAux : List Char → List Char → List Str
  | [], cur => if cur = [] then [] else [cur.reverse]
  | c :: rest, cur =>
      if isWsChar c then
        if cur = [] then tokensAux rest [] else cur.reverse :: tokensAux rest []
      else tokensAux rest (c :: cur)

/-- Split a string into its whitespace-separated tokens. -/
def tokens (v : Str) : List Str := tokensAux v []

/-- Accumulating splitter on `;` that keeps every piece (including empty ones). -/
def splitOnSemiAux : List Char → List Char → List Str
  | [], cur => [cur.reverse]
  | c :: rest, cur =>
      if c = ';' then cur.reverse :: splitOnSemiAux rest []
      else splitOnSemiAux rest (c :: cur)

/-- Split a string on `;`. -/
def splitOnSemi (v : Str) : List Str := splitOnSemiAux v []

/-- Split a string at its first `:`, returning the parts before and after it. -/
def splitFirstColon : List Char → Option (Str × Str)
  | [] => none
  | c :: rest =>
      if c = ':' then some ([], rest)
      else (splitFirstColon rest).map (fun p => (c :: p.1, p.2))

/-- Modelled from the spec: the URL validator's scheme extraction.  Scans for a
`:` delimiter; a `/`, `?` or `#` before any `:` (or no `:` at all) means the
reference is relative or scheme-relative and carries no scheme.  The scheme is
case-normalized to lower case. -/
def schemeOfAux : List Char → List Char → Option Str
  | [], _ => none
  | c :: rest, acc =>
      if c = ':' then (if acc = [] then none else some (acc.reverse.map Char.toLower))
      else if c = '/' || c = '?' || c = '#' then none
      else schemeOfAux rest (c :: acc)

/-- Scheme of a URL-reference attribute value, if it has one. -/
def schemeOf (v : Str) : Option Str := schemeOfAux (trimStr v) []

/-- Modelled from the spec: the CSS validator's parse of one `property: value`
declaration.  Rejects pieces with no colon, empty property names, at-rules and
pieces containing braces; trims whitespace around property and value. -/
def parseDecl (piece : Str) : Option (Str × Str) :=
  match splitFirstColon piece with
  | some (p, v) =>
      let p2 := trimStr p
      let v2 := trimStr v
      if p2 = [] then none
      else if p2.head? = some (Char.ofNat 64) then none
      else if piece.contains (Char.ofNat 123) || piece.contains (Char.ofNat 125) then none
      else some (p2, v2)
  | none => none

/-- Modelled from the spec: parse a `style` value as a `;`-delimited declaration
list, skipping invalid declarations individually. -/
def parseDecls (v : Str) : List (Str × Str) :=
  (splitOnSemi v).filterMap parseDecl

/-- Modelled from the spec: reserialize retained declarations in original order,
separated by `; `. -/
def serializeDecls (ds : List (Str × Str)) : Str :=
  List.intercalate (str "; ") (ds.map (fun d => d.1 ++ str ": " ++ d.2))

/-- Result of invoking the Python attribute-filter callback, as distinguished by
the adapter in `build_ammonia_from_config` (src/lib.rs:142-155): the callback
returns Python `None`, returns a string, returns a value of any other type, or
raises an exception. -/
inductive PyCallResult where
  | pyNone
  | pyStr (s : Str)
  | wrongType
  | raised
deriving DecidableEq

/-- Model of a Python object passed as `attribute_filter`: whether it is
callable, and what calling it with three strings produces. -/
structure PyObj where
  callable : Bool
  call : Str → Str → Str → PyCallResult

/-- Embedding of the error-handling tail of the attribute-filter closure
(src/lib.rs:142-171): `Ok(None)` removes the attribute, `Ok(str)` replaces the
value, and a wrong-typed result or a raised exception is reported through
`write_unraisable` (the Boolean component records that an out-of-band
diagnostic was emitted) while the original value is returned. -/
def filterAdapter (res : PyCallResult) (value : Str) : Option Str × Bool :=
  match res with
  | .pyNone => (none, false)
  | .pyStr s => (some s, false)
  | .wrongType => (some value, true)
  | .raised => (some value, true)

/-- Embedding of the attribute-filter closure installed by
`build_ammonia_from_config` (src/lib.rs:126-173): call the Python object with
(element, attribute, value) and run the result through the adapter. -/
def hookOf (f : PyObj) : Str → Str → Str → Option Str :=
  fun t n v => (filterAdapter (f.call t n v) v).1

/-- Modelled from the spec: the engine's declarative Policy (spec section 3),
after construction has resolved all defaults. -/
structure Policy where
  allowedTags : List Str
  cleanContentTags : List Str
  tagAttributes : List (Str × List Str)
  genericAttributes : List Str
  genericAttributePrefixes : List Str
  tagAttributeValues : List (Str × List (Str × List Str))
  setTagAttributeValues : List (Str × List (Str × Str))
  urlSchemes : List Str
  allowedClasses : List (Str × List Str)
  filterStyleProperties : Option (List Str)
  stripComments : Bool
  linkRel : Option Str
  hook : Option (Str → Str → Str → Option Str)

/-- Modelled from the spec: the engine's built-in default allowlists (spec
section 6 exposes them as read-only constants; their exact contents live in the
wrapped library, outside this repository, so they are kept parametric). -/
structure Defaults where
  tags : List Str
  cleanContentTags : List Str
  tagAttributes : List (Str × List Str)
  genericAttributes : List Str
  urlSchemes : List Str

/-- Embedding of the `Config` struct of src/lib.rs:9-22 (hash maps and sets
become association lists / lists). -/
structure Config where
  tags : Option (List Str)
  cleanContentTags : Option (List Str)
  attributes : Option (List (Str × List Str))
  attributeFilter : Option PyObj
  stripComments : Bool
  linkRel : Option Str
  genericAttributePrefixes : Option (List Str)
  tagAttributeValues : Option (List (Str × List (Str × List Str)))
  setTagAttributeValues : Option (List (Str × List (Str × Str)))
  urlSchemes : Option (List Str)
  allowedClasses : Option (List (Str × List Str))
  filterStyleProperties : Option (List Str)

/-- Embedding of the `Cleaner` pyclass (src/lib.rs:51-54): it owns the
constructed policy. -/
structure Cleaner where
  policy : Policy

/-- Two-level lookup in the tag -> attribute -> allowed-values map. -/
def lookup2 (m : List (Str × List (Str × List Str))) (t n : Str) : Option (List Str) :=
  match m.lookup t with
  | some inner => inner.lookup n
  | none => none

/-- Modelled from the spec: step 2a of the tree walker — an attribute name is
allowed when it is in the tag-specific set, the generic set, or carries an
allowed generic prefix. -/
def allowedName (P : Policy) (t n : Str) : Bool :=
  memS n ((P.tagAttributes.lookup t).getD []) || memS n P.genericAttributes ||
    P.genericAttributePrefixes.any (fun p => p.isPrefixOf n)

/-- Modelled from the spec: the fixed tag/attribute-specific set of URL-bearing
attributes (spec section 4.1 step 2b names `a[href]` and `img[src]`). -/
def urlBearing (t n : Str) : Bool :=
  (decide (t = str "a") && decide (n = str "href")) ||
    (decide (t = str "img") && decide (n = str "src"))

/-- Modelled from the spec: step 2b — a URL-bearing attribute with an explicit
scheme must have that scheme in the allowed set; scheme-less references pass. -/
def checkScheme (P : Policy) (t n v : Str) : Bool :=
  if urlBearing t n then
    match schemeOf v with
    | some sch => memS sch P.urlSchemes
    | none => true
  else true

/-- Modelled from the spec: step 2c — if `(tag, attribute)` has an entry in
`tag_attribute_values`, the literal value must be a member of the set. -/
def checkTagValue (P : Policy) (t n v : Str) : Bool :=
  match lookup2 P.tagAttributeValues t n with
  | some allowed => memS v allowed
  | none => true

/-- Modelled from the spec: step 2d — `class` token filtering; the attribute is
dropped when no allowed token remains. -/
def classStep (P : Policy) (t n v : Str) : Option Str :=
  if n = str "class" then
    match P.allowedClasses.lookup t with
    | some allowed =>
        let toks := (tokens v).filter (fun tok => memS tok allowed)
        if toks = [] then none else some (List.intercalate (str " ") toks)
    | none => some v
  else some v

/-- Modelled from the spec: step 2e — `style` declaration filtering; the
attribute is dropped when no allowed declaration remains. -/
def styleStep (P : Policy) (_t n v : Str) : Option Str :=
  if n = str "style" then
    match P.filterStyleProperties with
    | some props =>
        let ds := (parseDecls v).filter (fun d => memS d.1 props)
        if ds = [] then none else some (serializeDecls ds)
    | none => some v
  else some v

/-- Modelled from the spec: the static value checks of steps 2b-2e, applied in
order to an attribute that already passed the name allowlist. -/
def cleanValue (P : Policy) (t n v : Str) : Option Str :=
  if checkScheme P t n v then
    if checkTagValue P t n v then
      match classStep P t n v with
      | none => none
      | some v2 => styleStep P t n v2
    else none
  else none

/-- Modelled from the spec: the complete per-attribute pipeline of step 2 —
name allowlist, static value checks, then the optional attribute-filter hook
(step 2f), which can only restrict or rewrite an already-allowed attribute. -/
def processAttr (P : Policy) (t n v : Str) : Option Str :=
  if allowedName P t n then
    match cleanValue P t n v with
    | none => none
    | some v2 =>
        match P.hook with
        | none => some v2
        | some h => h t n v2
  else none

/-- Modelled from the spec: attribute filtering of a surviving element, in
original order, dropped attributes removed. -/
def filterAttrs (P : Policy) (t : Str) (attrs : List (Str × Str)) : List (Str × Str) :=
  attrs.filterMap (fun p => (processAttr P t p.1 p.2).map (fun v2 => (p.1, v2)))

/-- Modelled from the spec: force one attribute to a value — overwritten if
present, appended if absent. -/
def setAttr (attrs : List (Str × Str)) (a v : Str) : List (Str × Str) :=
  if attrs.any (fun p => p.1 = a) then
    attrs.map (fun p => if p.1 = a then (a, v) else p)
  else attrs ++ [(a, v)]

/-- Modelled from the spec: the tags on which `link_rel` forces a `rel`
attribute (the link-producing anchor tag). -/
def linkTags : List Str := [str "a"]

/-- Modelled from the spec: the policy-injected attributes of step 3 for a tag
— its `set_tag_attribute_values` entries followed by the `link_rel` forced
`rel` value on link-producing tags. -/
def forcedList (P : Policy) (t : Str) : List (Str × Str) :=
  (P.setTagAttributeValues.lookup t).getD [] ++
    (match P.linkRel with
     | some r => if t ∈ linkTags then [(str "rel", r)] else []
     | none => [])

/-- Modelled from the spec: step 3 — apply every forced attribute in order. -/
def forceAttrs (P : Policy) (t : Str) (attrs : List (Str × Str)) : List (Str × Str) :=
  (forcedList P t).foldl (fun acc p => setAttr acc p.1 p.2) attrs

/-- The HTML node tree, in first-child / next-sibling form: a `Node` value is a
forest (a chain of siblings). -/
inductive Node where
  | nil
  | element (tag : Str) (attrs : List (Str × Str)) (child : Node) (next : Node)
  | txt (s : Str) (next : Node)
  | comment (s : Str) (next : Node)
deriving DecidableEq

/-- Concatenation of two sibling chains. -/
def appendF : Node → Node → Node
  | .nil, m => m
  | .element t a c nx, m => .element t a c (appendF nx m)
  | .txt s nx, m => .txt s (appendF nx m)
  | .comment s nx, m => .comment s (appendF nx m)

/-- Modelled from the spec: the single-pass Tree Walker (spec section 4.1).
Allowed elements keep their filtered and then forced attributes and their
walked children; disallowed clean-content tags are deleted with their subtree;
other disallowed tags are unwrapped (children spliced in place); comments are
dropped when `strip_comments` is set; text passes through. -/
def walk (P : Policy) : Node → Node
  | .nil => .nil
  | .txt s nx => .txt s (walk P nx)
  | .comment s nx => if P.stripComments then walk P nx else .comment s (walk P nx)
  | .element t attrs c nx =>
      if t ∈ P.allowedTags then
        .element t (forceAttrs P t (filterAttrs P t attrs)) (walk P c) (walk P nx)
      else if t ∈ P.cleanContentTags then walk P nx
      else appendF (walk P c) (walk P nx)

/-- Embedding of `Cleaner::clean` (src/lib.rs:202-206): run the engine with the
cleaner's policy. -/
def cleanerClean (cl : Cleaner) (x : Node) : Node := walk cl.policy x

/-- Embedding of `Cleaner::py_clean` (src/lib.rs:308-311): the clean method
always returns `Ok`. -/
def pyClean (cl : Cleaner) (x : Node) : Except String Node :=
  Except.ok (cleanerClean cl x)

/-- State-passing embedding of the `py_clean` method: it takes the cleaner by
shared reference (`&self`), so the state it returns is the unchanged cleaner. -/
def cleanSt (cl : Cleaner) (x : Node) : Except String Node × Cleaner :=
  (pyClean cl x, cl)

/-- Embedding of `Cleaner::build_ammonia_from_config` (src/lib.rs:66-200):
resolve each optional config field against the engine defaults; the wildcard
`*` key of the attributes map is removed from the tag-specific map and its
entry becomes the generic attribute set; the attribute filter is wrapped by
`hookOf`. -/
def buildPolicy (d : Defaults) (c : Config) : Policy :=
  { allowedTags := c.tags.getD d.tags
    cleanContentTags := c.cleanContentTags.getD d.cleanContentTags
    tagAttributes :=
      match c.attributes with
      | some attrs => attrs.filter (fun p => decide (p.1 ≠ str "*"))
      | none => d.tagAttributes
    genericAttributes :=
      match c.attributes with
      | some attrs =>
          match attrs.lookup (str "*") with
          | some g => g
          | none => d.genericAttributes
      | none => d.genericAttributes
    genericAttributePrefixes := c.genericAttributePrefixes.getD []
    tagAttributeValues := c.tagAttributeValues.getD []
    setTagAttributeValues := c.setTagAttributeValues.getD []
    urlSchemes := c.urlSchemes.getD d.urlSchemes
    allowedClasses := c.allowedClasses.getD []
    filterStyleProperties := c.filterStyleProperties
    stripComments := c.stripComments
    linkRel := c.linkRel
    hook := c.attributeFilter.map hookOf }

/-- Embedding of `Cleaner::py_new` (src/lib.rs:270-305): reject a supplied
attribute filter that is not callable with a `TypeError`, otherwise build the
cleaner. -/
def pyNew (d : Defaults) (c : Config) : Except String Cleaner :=
  match c.attributeFilter with
  | some f =>
      if f.callable = false then Except.error "attribute_filter must be callable"
      else Except.ok (Cleaner.mk (buildPolicy d c))
  | none => Except.ok (Cleaner.mk (buildPolicy d c))

/-- Embedding of the module-level `clean` function (src/lib.rs:377-409):
construct a cleaner via `py_new`, propagating its error, then clean. -/
def cleanModule (d : Defaults) (x : Node) (c : Config) : Except String Node :=
  match pyNew d c with
  | Except.error e => Except.error e
  | Except.ok cl => Except.ok (cleanerClean cl x)

/-- Modelled from the spec: the per-character escape of `clean_text` — every
character with special meaning to an HTML parser (angle brackets, ampersand,
both quotes, and the space and slash that can end or break out of an unquoted
attribute) is replaced by an entity or numeric escape. -/
def escapeChar (c : Char) : Str :=
  if c = '<' then str "&lt;"
  else if c = '>' then str "&gt;"
  else if c = '&' then str "&amp;"
  else if c = Char.ofNat 34 then str "&quot;"
  else if c = Char.ofNat 39 then str "&apos;"
  else if c = ' ' then str "&#32;"
  else if c = '/' then str "&#47;"
  else [c]

/-- Modelled from the spec: `clean_text` / `escape_text`, the pure one-way
escaping transform (src/lib.rs:429-432 delegates it to the engine). -/
def cleanText (s : Str) : Str := s.foldr (fun c acc => escapeChar c ++ acc) []

/-- The characters the specification singles out as having special meaning. -/
def specialChars : List Char := ['<', '>', '&', Char.ofNat 34, Char.ofNat 39, ' ', '/']

/-- Modelled from the spec: closure property for attributes — every attribute
of every element in a forest is either allowed by name or forced by policy. -/
def attrsClosed (P : Policy) : Node → Prop
  | .nil => True
  | .txt _ nx => attrsClosed P nx
  | .comment _ nx => attrsClosed P nx
  | .element t attrs c nx =>
      (∀ p ∈ attrs, allowedName P t p.1 = true ∨ p.1 ∈ (forcedList P t).map Prod.fst) ∧
        attrsClosed P c ∧ attrsClosed P nx

/-! ### Concrete instances used by witnesses and counterexamples -/

/-- A trivial set of engine defaults (their contents are irrelevant to the
claims; theorems quantify over arbitrary defaults). -/
def d0 : Defaults :=
  { tags := []
    cleanContentTags := []
    tagAttributes := []
    genericAttributes := []
    urlSchemes := [] }

/-- The configuration produced by calling the binding with no arguments:
every option `None`, comments stripped, the default `link_rel` value
(src/lib.rs:256-268). -/
def cfgBase : Config :=
  { tags := none
    cleanContentTags := none
    attributes := none
    attributeFilter := none
    stripComments := true
    linkRel := some (str "noopener noreferrer")
    genericAttributePrefixes := none
    tagAttributeValues := none
    setTagAttributeValues := none
    urlSchemes := none
    allowedClasses := none
    filterStyleProperties := none }

/-- A non-callable Python object. -/
def fBad : PyObj := { callable := false, call := fun _ _ _ => PyCallResult.pyNone }

/-- A callable hook that always returns Python `None`. -/
def fGood : PyObj := { callable := true, call := fun _ _ _ => PyCallResult.pyNone }

/-- A callable hook that always returns a non-string, non-None value. -/
def fWrong : PyObj := { callable := true, call := fun _ _ _ => PyCallResult.wrongType }

/-- A callable hook that always returns the string `m`. -/
def fStr : PyObj := { callable := true, call := fun _ _ _ => PyCallResult.pyStr (str "m") }

/-- Configuration carrying the non-callable filter. -/
def cBad : Config := { cfgBase with attributeFilter := some fBad }

/-- Configuration carrying the callable filter. -/
def cGood : Config := { cfgBase with attributeFilter := some fGood }

/-- Conflicting configuration: an explicit `link_rel` (inherited from
`cfgBase`) together with `rel` allowed on every tag through the wildcard
attribute entry. -/
def c4conf : Config := { cfgBase with attributes := some [(str "*", [str "rel"])] }

/-- Small policy allowing tag `b` with attribute `t` and carrying the
wrong-type-returning hook. -/
def P1 : Policy :=
  { allowedTags := [str "b"]
    cleanContentTags := []
    tagAttributes := [(str "b", [str "t"])]
    genericAttributes := []
    genericAttributePrefixes := []
    tagAttributeValues := []
    setTagAttributeValues := []
    urlSchemes := []
    allowedClasses := []
    filterStyleProperties := none
    stripComments := true
    linkRel := none
    hook := some (hookOf fWrong) }

/-- Like `P1` but with the None-returning hook. -/
def P3 : Policy := { P1 with hook := some (hookOf fGood) }

/-- Policy allowing tag `a` with attribute `href`, default `link_rel`, no
hook. -/
def P6 : Policy :=
  { P1 with
    hook := none
    allowedTags := [str "a"]
    tagAttributes := [(str "a", [str "href"])]
    linkRel := some (str "noopener noreferrer") }

/-- A constant hook: it rewrites every attribute value to `z` (and is stable:
its outputs are its own fixed points). -/
def hb : Str → Str → Str → Option Str := fun _ _ _ => some (str "z")

/-- Policy with the constant rewriting hook and a value-set restriction for
`(b, t)` that the hook's output violates. -/
def Pbad : Policy :=
  { P1 with
    hook := some hb
    tagAttributeValues := [(str "b", [(str "t", [str "x"])])] }

/-- Hook-free policy with an allowed URL scheme and a clean-content tag, used
to witness idempotence. -/
def Pw : Policy := { P6 with urlSchemes := [str "http"], cleanContentTags := [str "script"] }

/-- Concrete input forest for the idempotence witness. -/
def xw : Node :=
  Node.element (str "a") [(str "href", str "http://e")] (Node.txt (str "x") Node.nil)
    (Node.element (str "u") [] Node.nil Node.nil)

/-- Concrete input for the idempotence counterexample. -/
def xbad : Node := Node.element (str "b") [(str "t", str "x")] Node.nil Node.nil

/-! ### Lemmas about the attribute pipeline -/

/-- Anatomy of a successful `processAttr`: the name was allowed, the static
checks produced some value, and the hook (if any) accepted it. -/
theorem processAttr_eq_some {P : Policy} {t n v w : Str}
    (h : processAttr P t n v = some w) :
    allowedName P t n = true ∧ ∃ v2, cleanValue P t n v = some v2 ∧
      ((P.hook = none ∧ w = v2) ∨ ∃ hk, P.hook = some hk ∧ hk t n v2 = some w) := by
  unfold processAttr at h
  by_cases ha : allowedName P t n = true
  · refine ⟨ha, ?_⟩
    rw [if_pos ha] at h
    cases hc : cleanValue P t n v with
    | none => rw [hc] at h; exact absurd h (by simp)
    | some v2 =>
        rw [hc] at h
        refine ⟨v2, rfl, ?_⟩
        cases hk : P.hook with
        | none => rw [hk] at h; simp only [Option.some.injEq] at h; exact Or.inl ⟨rfl, h.symm⟩
        | some hkf => rw [hk] at h; exact Or.inr ⟨hkf, rfl, h⟩
  · rw [if_neg ha] at h; exact absurd h (by simp)

/-- Without a hook, an attribute whose value is a fixed point of the static
checks passes the pipeline unchanged. -/
theorem processAttr_fix {P : Policy} {t n w : Str} (hh : P.hook = none)
    (ha : allowedName P t n = true) (hc : cleanValue P t n w = some w) :
    processAttr P t n w = some w := by
  unfold processAttr
  rw [if_pos ha, hc, hh]

/-- Every surviving attribute of `filterAttrs` comes from an input attribute of
the same name that the pipeline mapped to the surviving value. -/
theorem mem_filterAttrs {P : Policy} {t : Str} {l : List (Str × Str)} {n w : Str}
    (h : (n, w) ∈ filterAttrs P t l) :
    ∃ v, (n, v) ∈ l ∧ processAttr P t n v = some w := by
  unfold filterAttrs at h
  rw [List.mem_filterMap] at h
  obtain ⟨p, hp, he⟩ := h
  cases hm : processAttr P t p.1 p.2 with
  | none => rw [hm] at he; exact absurd he (by simp)
  | some v2 =>
      rw [hm] at he
      have he2 : (p.1, v2) = (n, w) := by simpa using he
      have h1 : p.1 = n := congrArg Prod.fst he2
      have h2 : v2 = w := congrArg Prod.snd he2
      refine ⟨p.2, ?_, ?_⟩
      · rw [← h1]; simpa using hp
      · rw [← h1, hm, h2]

/-- `filterAttrs` is the identity on a list of allowed fixed-point attributes
when no hook is installed. -/
theorem filterAttrs_id {P : Policy} {t : Str} {l : List (Str × Str)} (hh : P.hook = none)
    (hl : ∀ p ∈ l, allowedName P t p.1 = true ∧ cleanValue P t p.1 p.2 = some p.2) :
    filterAttrs P t l = l := by
  induction l with
  | nil => rfl
  | cons p rest ih =>
      have ⟨ha, hc⟩ := hl p (List.mem_cons_self ..)
      have hfix := processAttr_fix hh ha hc
      have hrest := ih fun q hq => hl q (List.mem_cons_of_mem _ hq)
      unfold filterAttrs at hrest ⊢
      rw [List.filterMap_cons, hrest, hfix]
      rfl

/-- `filterAttrs` distributes over list append. -/
theorem filterAttrs_append {P : Policy} {t : Str} (l1 l2 : List (Str × Str)) :
    filterAttrs P t (l1 ++ l2) = filterAttrs P t l1 ++ filterAttrs P t l2 := by
  unfold filterAttrs
  exact List.filterMap_append ..

/-- `filterAttrs` deletes everything whose name is disallowed. -/
theorem filterAttrs_nil_of {P : Policy} {t : Str} {l : List (Str × Str)}
    (hl : ∀ p ∈ l, allowedName P t p.1 = false) :
    filterAttrs P t l = [] := by
  induction l with
  | nil => rfl
  | cons p rest ih =>
      have ha := hl p (List.mem_cons_self ..)
      have h2 : processAttr P t p.1 p.2 = none := by
        unfold processAttr
        rw [if_neg (by simp [ha])]
      have hrest := ih fun q hq => hl q (List.mem_cons_of_mem _ hq)
      unfold filterAttrs at hrest ⊢
      rw [List.filterMap_cons, hrest, h2]
      rfl

/-- Elements of `setAttr l a v` are old elements or the forced pair. -/
theorem mem_setAttr {l : List (Str × Str)} {a v : Str} {p : Str × Str}
    (h : p ∈ setAttr l a v) : p ∈ l ∨ p = (a, v) := by
  unfold setAttr at h
  split at h
  · rw [List.mem_map] at h
    obtain ⟨q, hq, he⟩ := h
    by_cases hqa : q.1 = a
    · right; rw [← he, if_pos hqa]
    · left; rw [← he, if_neg hqa]; exact hq
  · rw [List.mem_append] at h
    cases h with
    | inl h => exact Or.inl h
    | inr h => right; simpa using h

/-- Elements of a fold of forced assignments are old elements or carry a forced
name. -/
theorem mem_foldl_setAttr {p : Str × Str} :
    ∀ (rest X : List (Str × Str)),
      p ∈ rest.foldl (fun acc q => setAttr acc q.1 q.2) X →
      p ∈ X ∨ p.1 ∈ rest.map Prod.fst := by
  intro rest
  induction rest with
  | nil => intro X h; exact Or.inl h
  | cons q rest2 ih =>
      intro X h
      simp only [List.foldl_cons] at h
      rcases ih _ h with h2 | h2
      · rcases mem_setAttr h2 with h3 | h3
        · exact Or.inl h3
        · right; rw [h3]; simp
      · right; simp [h2]

/-- Folding forced assignments whose names avoid a prefix list `F` leaves `F`
untouched in front. -/
theorem foldl_setAttr_split (S : List Str) :
    ∀ (rest X F : List (Str × Str)),
      (∀ q ∈ F, q.1 ∉ S) → (∀ p ∈ rest, p.1 ∈ S) → (∀ x ∈ X, x.1 ∈ S) →
      rest.foldl (fun acc q => setAttr acc q.1 q.2) (F ++ X)
        = F ++ rest.foldl (fun acc q => setAttr acc q.1 q.2) X := by
  intro rest
  induction rest with
  | nil => intro X F _ _ _; rfl
  | cons a rest2 ih =>
      intro X F hF hr hX
      have haS : a.1 ∈ S := hr a (List.mem_cons_self ..)
      have hstep : setAttr (F ++ X) a.1 a.2 = F ++ setAttr X a.1 a.2 := by
        unfold setAttr
        have hFany : F.any (fun p => p.1 = a.1) = false := by
          rw [List.any_eq_false]
          intro q hq
          simp only [decide_eq_true_eq]
          intro he
          exact hF q hq (he ▸ haS)
        rw [List.any_append, hFany, Bool.false_or]
        split
        · rw [List.map_append]
          congr 1
          have hid : ∀ p ∈ F, (if p.1 = a.1 then (a.1, a.2) else p) = p := by
            intro p hp
            have hne : ¬p.1 = a.1 := by
              intro he
              apply hF p hp
              rw [he]
              exact haS
            exact if_neg hne
          rw [List.map_congr_left hid]
          exact List.map_id F
        · rw [List.append_assoc]
      simp only [List.foldl_cons, hstep]
      refine ih (setAttr X a.1 a.2) F hF (fun p hp => hr p (List.mem_cons_of_mem _ hp)) ?_
      intro x hx
      rcases mem_setAttr hx with h | h
      · exact hX x h
      · rw [h]; exact haS

/-- When every forced attribute name is statically disallowed, forcing appends
one fixed block after any list of allowed attributes. -/
theorem forceAttrs_split {P : Policy} {t : Str} {F : List (Str × Str)}
    (hf : ∀ p ∈ forcedList P t, allowedName P t p.1 = false)
    (hF : ∀ q ∈ F, allowedName P t q.1 = true) :
    forceAttrs P t F = F ++ forceAttrs P t [] := by
  have h := foldl_setAttr_split ((forcedList P t).map Prod.fst) (forcedList P t) [] F
    ?_ ?_ ?_
  · unfold forceAttrs
    simpa using h
  · intro q hq hmem
    rw [List.mem_map] at hmem
    obtain ⟨p, hp, he⟩ := hmem
    have h1 := hf p hp
    rw [he] at h1
    rw [hF q hq] at h1
    exact Bool.noConfusion h1
  · intro p hp
    exact List.mem_map_of_mem _ hp
  · intro x hx
    exact absurd hx (List.not_mem_nil x)

/-- Core attribute-level idempotence: filtering and forcing twice equals doing
it once, provided there is no hook, the static value checks are stable, and
every forced name is statically disallowed. -/
theorem attrsIdem {P : Policy} {t : Str} (hh : P.hook = none)
    (hs : ∀ n v w, cleanValue P t n v = some w → cleanValue P t n w = some w)
    (hf : ∀ p ∈ forcedList P t, allowedName P t p.1 = false)
    (attrs : List (Str × Str)) :
    forceAttrs P t (filterAttrs P t (forceAttrs P t (filterAttrs P t attrs)))
      = forceAttrs P t (filterAttrs P t attrs) := by
  have hFgood : ∀ p ∈ filterAttrs P t attrs,
      allowedName P t p.1 = true ∧ cleanValue P t p.1 p.2 = some p.2 := by
    intro p hp
    have hp2 : (p.1, p.2) ∈ filterAttrs P t attrs := by simpa using hp
    obtain ⟨v, _, hpa⟩ := mem_filterAttrs hp2
    obtain ⟨ha, v2, hcv, hrest⟩ := processAttr_eq_some hpa
    rcases hrest with ⟨_, hw⟩ | ⟨hk, hkeq, _⟩
    · subst hw
      exact ⟨ha, hs _ _ _ hcv⟩
    · rw [hh] at hkeq
      exact absurd hkeq (by simp)
  have hsplit : forceAttrs P t (filterAttrs P t attrs)
      = filterAttrs P t attrs ++ forceAttrs P t [] :=
    forceAttrs_split hf fun q hq => (hFgood q hq).1
  have hG : ∀ x ∈ forceAttrs P t [], allowedName P t x.1 = false := by
    intro x hx
    rcases mem_foldl_setAttr _ _ hx with h | h
    · exact absurd h (List.not_mem_nil x)
    · rw [List.mem_map] at h
      obtain ⟨p, hp, he⟩ := h
      exact he ▸ hf p hp
  rw [hsplit, filterAttrs_append, filterAttrs_id hh hFgood, filterAttrs_nil_of hG,
    List.append_nil]
  exact hsplit

/-! ### Lemmas about the tree walker -/

/-- Sibling-chain concatenation is associative. -/
theorem appendF_assoc (a b c : Node) :
    appendF (appendF a b) c = appendF a (appendF b c) := by
  induction a with
  | nil => rfl
  | element t al ch nx _ihc ihn => simp [appendF, ihn]
  | txt s nx ihn => simp [appendF, ihn]
  | comment s nx ihn => simp [appendF, ihn]

/-- The walker distributes over sibling-chain concatenation. -/
theorem walk_append (P : Policy) (a b : Node) :
    walk P (appendF a b) = appendF (walk P a) (walk P b) := by
  induction a with
  | nil => rfl
  | txt s nx ihn => simp [appendF, walk, ihn]
  | comment s nx ihn =>
      by_cases hsc : P.stripComments <;> simp [appendF, walk, hsc, ihn]
  | element t al ch nx _ihc ihn =>
      by_cases h1 : t ∈ P.allowedTags
      · simp [appendF, walk, h1, ihn]
      · by_cases h2 : t ∈ P.cleanContentTags
        · simp [appendF, walk, h1, h2, ihn]
        · simp [appendF, walk, h1, h2, ihn, appendF_assoc]

/-- Attribute closure is preserved by sibling-chain concatenation. -/
theorem attrsClosed_append {P : Policy} {a b : Node}
    (ha : attrsClosed P a) (hb : attrsClosed P b) : attrsClosed P (appendF a b) := by
  induction a with
  | nil => simpa [appendF] using hb
  | txt s nx ihn =>
      simp only [appendF, attrsClosed] at ha ⊢
      exact ihn ha
  | comment s nx ihn =>
      simp only [appendF, attrsClosed] at ha ⊢
      exact ihn ha
  | element t al ch nx _ihc ihn =>
      simp only [appendF, attrsClosed] at ha ⊢
      exact ⟨ha.1, ha.2.1, ihn ha.2.2⟩

/-- Walker idempotence under the hypotheses of `attrsIdem`, chain by chain. -/
theorem walk_idem {P : Policy} (hh : P.hook = none)
    (hs : ∀ t n v w, cleanValue P t n v = some w → cleanValue P t n w = some w)
    (hf : ∀ t, ∀ p ∈ forcedList P t, allowedName P t p.1 = false) :
    ∀ x, walk P (walk P x) = walk P x := by
  intro x
  induction x with
  | nil => rfl
  | txt s nx ihn => simp [walk, ihn]
  | comment s nx ihn => by_cases hsc : P.stripComments <;> simp [walk, hsc, ihn]
  | element t al ch nx ihc ihn =>
      by_cases h1 : t ∈ P.allowedTags
      · simp [walk, h1, ihc, ihn, attrsIdem hh (hs t) (hf t)]
      · by_cases h2 : t ∈ P.cleanContentTags
        · simp [walk, h1, h2, ihn]
        · simp [walk, h1, h2, walk_append, ihc, ihn]

/-- Every attribute in the walker's output is statically allowed or forced. -/
theorem walk_attrsClosed (P : Policy) : ∀ x, attrsClosed P (walk P x) := by
  intro x
  induction x with
  | nil => trivial
  | txt s nx ihn => simpa [walk, attrsClosed] using ihn
  | comment s nx ihn =>
      by_cases hsc : P.stripComments <;> simp [walk, attrsClosed, hsc] <;> exact ihn
  | element t al ch nx ihc ihn =>
      by_cases h1 : t ∈ P.allowedTags
      · simp only [walk, if_pos h1, attrsClosed]
        refine ⟨?_, ihc, ihn⟩
        intro p hp
        rcases mem_foldl_setAttr _ _ hp with h | h
        · left
          have hp2 : (p.1, p.2) ∈ filterAttrs P t al := by simpa using h
          obtain ⟨v, _, hpa⟩ := mem_filterAttrs hp2
          exact (processAttr_eq_some hpa).1
        · right; exact h
      · by_cases h2 : t ∈ P.cleanContentTags
        · simp only [walk, if_neg h1, if_pos h2]
          exact ihn
        · simp only [walk, if_neg h1, if_neg h2]
          exact attrsClosed_append ihc ihn

/-- For a policy with no value-set restrictions, no class filtering and no
style filtering, the static value checks are stable: an accepted value is
accepted unchanged when re-checked. -/
theorem cleanValue_stable_simple {P : Policy}
    (h1 : P.tagAttributeValues = []) (h2 : P.allowedClasses = [])
    (h3 : P.filterStyleProperties = none) {t n v w : Str}
    (h : cleanValue P t n v = some w) : cleanValue P t n w = some w := by
  have hv : cleanValue P t n v = if checkScheme P t n v then some v else none := by
    unfold cleanValue checkTagValue lookup2 classStep styleStep
    rw [h1, h2, h3]
    simp
  have hgen : ∀ u : Str, cleanValue P t n u = if checkScheme P t n u then some u else none := by
    intro u
    unfold cleanValue checkTagValue lookup2 classStep styleStep
    rw [h1, h2, h3]
    simp
  rw [hgen] at h
  by_cases hcs : checkScheme P t n v = true
  · rw [if_pos hcs] at h
    have hw : v = w := by injection h
    subst hw
    rw [hgen, if_pos hcs]
  · rw [if_neg (by simpa using hcs)] at h
    exact absurd h (by simp)

/-! ### Claim theorems -/

/-- Claim C1: when the attribute-filter hook raises or returns a value that is
neither a string nor None, the adapter emits an out-of-band diagnostic, the
hook result seen by the engine is the original pre-hook value (so the
attribute is kept with that value by the per-attribute pipeline), and the
clean operation still produces an output forest. -/
theorem c1_hook_failure_recovered (f : PyObj) (P : Policy) (t n v v0 : Str) (x : Node)
    (hres : f.call t n v = PyCallResult.wrongType ∨ f.call t n v = PyCallResult.raised)
    (hP : P.hook = some (hookOf f))
    (ha : allowedName P t n = true) (hc : cleanValue P t n v0 = some v) :
    (filterAdapter (f.call t n v) v).2 = true ∧
      hookOf f t n v = some v ∧
      processAttr P t n v0 = some v ∧
      ∃ out, walk P x = out := by
  have had : filterAdapter (f.call t n v) v = (some v, true) := by
    rcases hres with h | h <;> rw [h] <;> rfl
  have h1 : hookOf f t n v = some v := by
    unfold hookOf
    rw [had]
  refine ⟨by rw [had], h1, ?_, ⟨walk P x, rfl⟩⟩
  unfold processAttr
  rw [if_pos ha, hc, hP]
  exact h1

/-- Witness for C1 at the wrong-type-returning hook `fWrong` inside policy
`P1`, on attribute `t` of tag `b` with value `x`. -/
theorem c1_witness :
    (filterAdapter (fWrong.call (str "b") (str "t") (str "x")) (str "x")).2 = true ∧
      hookOf fWrong (str "b") (str "t") (str "x") = some (str "x") ∧
      processAttr P1 (str "b") (str "t") (str "x") = some (str "x") ∧
      ∃ out, walk P1 Node.nil = out :=
  c1_hook_failure_recovered fWrong P1 (str "b") (str "t") (str "x") (str "x") Node.nil
    (Or.inl rfl) rfl (by decide) (by decide)

/-- Claim C2: construction rejects a supplied non-callable attribute filter
with the configuration `TypeError` (before any input is touched: `pyNew` does
not receive the input), and succeeds on that check when the filter is
callable. -/
theorem c2_callable_checked (d : Defaults) (c : Config) (f : PyObj)
    (hf : c.attributeFilter = some f) :
    (f.callable = false →
      pyNew d c = Except.error "attribute_filter must be callable") ∧
    (f.callable = true → ∃ cl, pyNew d c = Except.ok cl) := by
  constructor
  · intro hcall
    simp [pyNew, hf, hcall]
  · intro hcall
    refine ⟨Cleaner.mk (buildPolicy d c), ?_⟩
    simp [pyNew, hf, hcall]

/-- Witness for C2: the non-callable filter is rejected and the callable one
accepted, on otherwise-default configurations. -/
theorem c2_witness :
    pyNew d0 cBad = Except.error "attribute_filter must be callable" ∧
      ∃ cl, pyNew d0 cGood = Except.ok cl :=
  ⟨(c2_callable_checked d0 cBad fBad rfl).1 rfl,
   (c2_callable_checked d0 cGood fGood rfl).2 rfl⟩

/-- Claim C3: a normally-returning hook decides the attribute's fate — Python
`None` removes the attribute, a returned string becomes the attribute's
value. -/
theorem c3_hook_return_dispatch (f : PyObj) (P : Policy) (t n v v0 s : Str)
    (hP : P.hook = some (hookOf f)) (ha : allowedName P t n = true)
    (hc : cleanValue P t n v0 = some v) :
    (f.call t n v = PyCallResult.pyNone →
      hookOf f t n v = none ∧ processAttr P t n v0 = none) ∧
    (f.call t n v = PyCallResult.pyStr s →
      hookOf f t n v = some s ∧ processAttr P t n v0 = some s) := by
  constructor
  · intro h
    have h1 : hookOf f t n v = none := by
      unfold hookOf
      rw [h]
      rfl
    refine ⟨h1, ?_⟩
    unfold processAttr
    rw [if_pos ha, hc, hP]
    exact h1
  · intro h
    have h1 : hookOf f t n v = some s := by
      unfold hookOf
      rw [h]
      rfl
    refine ⟨h1, ?_⟩
    unfold processAttr
    rw [if_pos ha, hc, hP]
    exact h1

/-- Witness for C3 at the None-returning hook `fGood` inside policy `P3`:
the attribute is removed. -/
theorem c3_witness :
    hookOf fGood (str "b") (str "t") (str "x") = none ∧
      processAttr P3 (str "b") (str "t") (str "x") = none :=
  (c3_hook_return_dispatch fGood P3 (str "b") (str "t") (str "x") (str "x") (str "m")
    rfl (by decide) (by decide)).1 rfl

/-- Claim C4 counterexample: with an explicit `link_rel` and `rel` allowed on
every tag through the wildcard attribute entry, construction does NOT raise a
configuration error — it succeeds, contradicting the claim that this conflict
is rejected before any input is processed. -/
theorem c4_counterexample :
    c4conf.linkRel = some (str "noopener noreferrer") ∧
      (buildPolicy d0 c4conf).genericAttributes = [str "rel"] ∧
      pyNew d0 c4conf = Except.ok (Cleaner.mk (buildPolicy d0 c4conf)) :=
  ⟨rfl, rfl, rfl⟩

/-- Claim C4 (amended): construction never checks the `rel`/`link_rel`
conflict; whenever the supplied attribute filter (if any) is callable,
construction succeeds — even for conflicting `rel` configurations.  (The
conflict is surfaced by the wrapped engine only when a clean call processes
input, not at construction.) -/
theorem c4_construction_never_checks_rel (d : Defaults) (c : Config)
    (hcall : ∀ f, c.attributeFilter = some f → f.callable = true) :
    ∃ cl, pyNew d c = Except.ok cl := by
  cases hf : c.attributeFilter with
  | none => exact ⟨Cleaner.mk (buildPolicy d c), by simp [pyNew, hf]⟩
  | some f => exact ⟨Cleaner.mk (buildPolicy d c), by simp [pyNew, hf, hcall f hf]⟩

/-- Witness for the amended C4 at the conflicting configuration `c4conf`. -/
theorem c4_witness : ∃ cl, pyNew d0 c4conf = Except.ok cl :=
  c4_construction_never_checks_rel d0 c4conf (fun _ h => Option.noConfusion h)

/-- Claim C5: the clean method always succeeds on any input forest; the
module-level clean fails exactly when construction fails, with the same
error, and otherwise returns the cleaner's output. -/
theorem c5_sanitize_total (d : Defaults) (c : Config) (x : Node) :
    (∀ (cl : Cleaner) (y : Node), pyClean cl y = Except.ok (cleanerClean cl y)) ∧
    (∀ e, cleanModule d x c = Except.error e ↔ pyNew d c = Except.error e) ∧
    (∀ cl, pyNew d c = Except.ok cl →
      cleanModule d x c = Except.ok (cleanerClean cl x)) := by
  refine ⟨fun cl y => rfl, ?_, ?_⟩
  · intro e
    unfold cleanModule
    cases h : pyNew d c <;> simp
  · intro cl h
    unfold cleanModule
    rw [h]

/-- Witness for C5 on the default configuration and the empty forest. -/
theorem c5_witness :
    cleanModule d0 Node.nil cfgBase
      = Except.ok (cleanerClean (Cleaner.mk (buildPolicy d0 cfgBase)) Node.nil) :=
  (c5_sanitize_total d0 cfgBase Node.nil).2.2 (Cleaner.mk (buildPolicy d0 cfgBase)) rfl

/-- Claim C6 counterexample: under policy `P6` (whose attribute allowlists
nowhere contain `rel`), the walker's output element carries the forced
`rel` attribute — so an attribute can appear on a surviving element although
its name is in neither the tag-specific set, the generic set, nor an allowed
prefix. -/
theorem c6_counterexample :
    walk P6 (Node.element (str "a") [] Node.nil Node.nil)
        = Node.element (str "a") [(str "rel", str "noopener noreferrer")] Node.nil Node.nil ∧
      allowedName P6 (str "a") (str "rel") = false := by
  constructor
  · decide
  · decide

/-- Claim C6 (amended): the wildcard `*` entry of the attributes map becomes
the generic attribute set and is excluded from the tag-specific allowlist
passed to the engine; and every attribute of every surviving element is
either statically allowed (tag-specific, generic, or prefix) or forced by
policy (`set_tag_attribute_values` / `link_rel`). -/
theorem c6_wildcard_and_closure :
    (∀ (d : Defaults) (c : Config) (attrs : List (Str × List Str)),
      c.attributes = some attrs →
        str "*" ∉ ((buildPolicy d c).tagAttributes).map Prod.fst ∧
        (∀ p ∈ attrs, p.1 ≠ str "*" → p ∈ (buildPolicy d c).tagAttributes) ∧
        (∀ g, attrs.lookup (str "*") = some g →
          (buildPolicy d c).genericAttributes = g)) ∧
    (∀ (P : Policy) (x : Node), attrsClosed P (walk P x)) := by
  constructor
  · intro d c attrs h
    refine ⟨?_, ?_, ?_⟩
    · intro hmem
      rw [List.mem_map] at hmem
      obtain ⟨p, hp, he⟩ := hmem
      have hp2 : p ∈ attrs.filter (fun p => decide (p.1 ≠ str "*")) := by
        simpa [buildPolicy, h] using hp
      rw [List.mem_filter] at hp2
      have := hp2.2
      simp only [decide_eq_true_eq] at this
      exact this he
    · intro p hp hne
      simp only [buildPolicy, h]
      rw [List.mem_filter]
      exact ⟨hp, by simpa using hne⟩
    · intro g hg
      simp [buildPolicy, h, hg]
  · exact walk_attrsClosed

/-- Witness for the amended C6 on a concrete attributes map with a wildcard
entry. -/
theorem c6_witness :
    str "*" ∉ ((buildPolicy d0 { cfgBase with
        attributes := some [(str "*", [str "x"]), (str "a", [str "href"])] }).tagAttributes).map
        Prod.fst ∧
      (buildPolicy d0 { cfgBase with
        attributes := some [(str "*", [str "x"]), (str "a", [str "href"])] }).genericAttributes
        = [str "x"] := by
  have h := (c6_wildcard_and_closure).1 d0
    { cfgBase with attributes := some [(str "*", [str "x"]), (str "a", [str "href"])] }
    [(str "*", [str "x"]), (str "a", [str "href"])] rfl
  exact ⟨h.1, h.2.2 [str "x"] rfl⟩

/-- Claim C7 counterexample: a stable hook (the constant hook `hb`, whose
outputs are its own fixed points) breaks idempotence, because the hook's
rewritten value escapes the static value checks on the first pass and is
removed by them on the second. -/
theorem c7_counterexample :
    (∀ t n v w, hb t n v = some w → hb t n w = some w) ∧
      walk Pbad (walk Pbad xbad) ≠ walk Pbad xbad := by
  constructor
  · intro t n v w h
    have hw : w = str "z" := by
      have : some (str "z") = some w := h
      injection this with h2
      exact h2.symm
    rw [hw]
    rfl
  · decide

/-- Claim C7 (amended): sanitization is idempotent for every input forest and
every policy that has no attribute-filter hook, whose static value checks are
stable (a value they accept is accepted unchanged when re-checked), and whose
forced attributes (`set_tag_attribute_values` and `link_rel`) all target
names outside the static attribute allowlist of their tag. -/
theorem c7_sanitize_idempotent (P : Policy) (hh : P.hook = none)
    (hs : ∀ t n v w, cleanValue P t n v = some w → cleanValue P t n w = some w)
    (hf : ∀ t, ∀ p ∈ forcedList P t, allowedName P t p.1 = false) (x : Node) :
    walk P (walk P x) = walk P x :=
  walk_idem hh hs hf x

/-- Witness for the amended C7 on policy `Pw` and forest `xw`. -/
theorem c7_witness : walk Pw (walk Pw xw) = walk Pw xw := by
  refine c7_sanitize_idempotent Pw rfl
    (fun t n v w h => cleanValue_stable_simple rfl rfl rfl h) ?_ xw
  intro t p hp
  simp only [forcedList, Pw, P6, P1, List.lookup_nil, Option.getD_none,
    List.nil_append] at hp
  split at hp
  case isTrue ht =>
    have hpe : p = (str "rel", str "noopener noreferrer") := by simpa using hp
    have ht2 : t = str "a" := by simpa [linkTags] using ht
    subst ht2
    rw [hpe]
    decide
  case isFalse =>
    exact absurd hp (List.not_mem_nil p)

/-- Claim C8: the clean method is a pure function of the constructed policy
and the input — the state-passing embedding returns the cleaner unchanged,
the result is determined by policy and input alone, and repeated calls agree. -/
theorem c8_clean_pure (cl : Cleaner) (x : Node) :
    (cleanSt cl x).2 = cl ∧
    (cleanSt cl x).1 = Except.ok (walk cl.policy x) ∧
    (∀ cl2 : Cleaner, cl2.policy = cl.policy → (cleanSt cl2 x).1 = (cleanSt cl x).1) := by
  refine ⟨rfl, rfl, ?_⟩
  intro cl2 h
  simp [cleanSt, pyClean, cleanerClean, h]

/-- Witness for C8 on the cleaner built over `Pw`. -/
theorem c8_witness :
    (cleanSt (Cleaner.mk Pw) xw).2 = Cleaner.mk Pw ∧
      (cleanSt (Cleaner.mk Pw) xw).1 = (cleanSt (Cleaner.mk Pw) xw).1 :=
  ⟨(c8_clean_pure (Cleaner.mk Pw) xw).1,
   (c8_clean_pure (Cleaner.mk Pw) xw).2.2 (Cleaner.mk Pw) rfl⟩

/-- Claim C9: the plain-text escaping function maps the documented example to
its exact escaped form, and every special character is rewritten to an
entity starting with an ampersand (never left in place). -/
theorem c9_escape_example :
    cleanText (str "Robert\"); abuse();//") = str "Robert&quot;);&#32;abuse();&#47;&#47;" ∧
      (specialChars.all fun c =>
        decide (escapeChar c ≠ [c]) && decide ((escapeChar c).head? = some '&')) = true := by
  constructor
  · decide
  · decide

/-- Claim C10: the module-level clean function is exactly construction via
`py_new` followed by the cleaner's clean method, construction errors
propagated unchanged. -/
theorem c10_module_clean_refines_cleaner (d : Defaults) (c : Config) (x : Node) :
    cleanModule d x c = Except.map (fun cl => cleanerClean cl x) (pyNew d c) := by
  unfold cleanModule
  cases h : pyNew d c <;> simp [Except.map]

end NH3
